import Mathlib

/-!
Verification of the rpg password-generator core (character-set construction
and constrained generation engine) against its specification.

The Rust source is shallowly embedded: bytes are naturals, Rust `Vec` is
`List`, fallible functions return `Except` (and `Option` models the
possibility of a panic where the source indexes without a bounds check),
and the injected random source is an explicit stream of naturals advanced
by a cursor.
-/

namespace Rpg

/-- The injected random source: an arbitrary stream of naturals together
with a cursor.  A bounded draw reads the next stream value modulo the
bound, which models the capability "sample uniformly in a range" required
by the spec; reseeding a source means supplying an equal stream. -/
structure Rng where
  stream : Nat → Nat
  pos : Nat

/-- Models rng.random_range over the half-open range from 0 to n. -/
def randomRange (r : Rng) (n : Nat) : Nat × Rng :=
  (r.stream r.pos % n, ⟨r.stream, r.pos + 1⟩)

/-! ## Range/Token Parser (parse_exclude_chars, src/src/lib.rs lines 160-196)

A Rust `String` token is embedded as its list of `Char`s; the byte length
that the source tests with `s.len() == 3` is recovered from the UTF-8
encoding width of each character.  Indexing `chars[1]` / `chars[2]` in the
source is unchecked, so the embedding returns `Option`, `none` standing
for the out-of-bounds panic. -/

/-- UTF-8 encoded byte width of one character. -/
def utf8Len (c : Char) : Nat :=
  if c.toNat < 0x80 then 1
  else if c.toNat < 0x800 then 2
  else if c.toNat < 0x10000 then 3
  else 4

/-- Byte length of a token, as computed by s.len() on a Rust String. -/
def tokenByteLen (t : List Char) : Nat :=
  (t.map utf8Len).sum

/-- The literal-character branch of the parser loop: each character of the
token is appended unless already present in the accumulating result. -/
def addLiteralChars (acc : List Char) (t : List Char) : List Char :=
  t.foldl (fun a c => if a.contains c then a else a ++ [c]) acc

/-- The message produced for an inverted range token. -/
def rangeErrMsg (c0 c2 : Char) : String :=
  "Invalid range: start character " ++ String.mk [c0] ++
    " is greater than end character " ++ String.mk [c2]

/-- One iteration of the parser loop of parse_exclude_chars over a single
token, given the accumulated result so far.  Mirrors the source exactly:
the range branch fires when the byte length is 3 and the second character
is a dash; the endpoint bytes are the character scalar values truncated to
u8; `none` models the panic when chars has fewer elements than the
source indexes. -/
def processToken (acc : List Char) (t : List Char) :
    Option (Except String (List Char)) :=
  if tokenByteLen t = 3 then
    match t with
    | c0 :: c1 :: rest =>
      if c1 = '-' then
        match rest with
        | c2 :: _ =>
          let s := c0.toNat % 256
          let e := c2.toNat % 256
          if s ≤ e ∧ 32 ≤ s ∧ e < 127 then
            some (Except.ok (acc ++ (List.range' s (e + 1 - s)).map Char.ofNat))
          else if e < s then
            some (Except.error (rangeErrMsg c0 c2))
          else
            some (Except.ok (addLiteralChars acc t))
        | [] => none
      else
        some (Except.ok (addLiteralChars acc t))
    | [] => none
    | _ :: [] => none
  else
    some (Except.ok (addLiteralChars acc t))

/-- The parser loop over the whole token list, threading the accumulated
result and stopping at the first error (the source returns early). -/
def parseExcludeGo (acc : List Char) :
    List (List Char) → Option (Except String (List Char))
  | [] => some (Except.ok acc)
  | t :: ts =>
    match processToken acc t with
    | none => none
    | some (Except.error e) => some (Except.error e)
    | some (Except.ok acc') => parseExcludeGo acc' ts

/-- Embedding of parse_exclude_chars (tokens as lists of characters).
A `none` result models a panic of the source. -/
def parse_exclude_chars (tokens : List (List Char)) :
    Option (Except String (List Char)) :=
  parseExcludeGo [] tokens

/-- Whether a token fires the range-expansion branch of the parser. -/
def expandsAsRange (t : List Char) : Bool :=
  (tokenByteLen t == 3) &&
    match t with
    | c0 :: c1 :: c2 :: _ =>
      (c1 == '-') && (c0.toNat % 256 ≤ c2.toNat % 256 : Bool) &&
        (32 ≤ c0.toNat % 256 : Bool) && (c2.toNat % 256 < 127 : Bool)
    | _ => false

/-! ## Character-Set Builder and Validator (src/src/lib.rs lines 200-281)

Alphabet bytes are naturals below 256.  The Rust cast of a character to u8
truncates the scalar value, and the cast of a byte back to char is the
code point, so the exclusion test compares scalar values directly. -/

/-- Error type of the builder and validator. -/
inductive PasswordError where
  | InvalidLength
  | InvalidLengthTooLong
  | InvalidCount
  | EmptyCharacterSet
  | AllTypesDisabled
deriving DecidableEq

/-- Pattern character categories. -/
inductive PatternChar where
  | Lowercase
  | Uppercase
  | Numeric
  | Symbol
deriving DecidableEq, Inhabited

/-- The argument record consumed by the builder and validator. -/
structure PasswordArgs where
  capitals_off : Bool
  numerals_off : Bool
  symbols_off : Bool
  exclude_chars : List Char
  include_chars : Option (List Char)
  min_capitals : Option Nat
  min_numerals : Option Nat
  min_symbols : Option Nat
  pattern : Option (List PatternChar)
  length : Nat
  password_count : Nat

/-- Truncating cast of a character to a byte (Rust c as u8). -/
def charToByte (c : Char) : Nat :=
  c.toNat % 256

/-- The category base ranges of the builder (inclusive ASCII ranges
written as List.range' start count). -/
def lowercaseRange : List Nat := List.range' 97 26
/-- Uppercase base range, 65 to 90. -/
def uppercaseRange : List Nat := List.range' 65 26
/-- Numeral base range, 48 to 57. -/
def numeralRange : List Nat := List.range' 48 10
/-- The four symbol sub-ranges 33-47, 58-64, 91-96, 123-126. -/
def symbolRanges : List Nat :=
  List.range' 33 15 ++ List.range' 58 7 ++ List.range' 91 6 ++ List.range' 123 4

/-- Membership of a byte in the exclusion set: the source casts the byte
to char and tests HashSet membership, which holds exactly when some
excluded character has that scalar value. -/
def isExcluded (exclude : List Char) (b : Nat) : Bool :=
  exclude.any (fun c => c.toNat == b)

/-- Embedding of build_char_set: inclusion list verbatim when present,
otherwise the enabled category ranges; then the exclusion filter and the
emptiness check. -/
def build_char_set (args : PasswordArgs) : Except PasswordError (List Nat) :=
  let chars : List Nat :=
    match args.include_chars with
    | some inc => inc.map charToByte
    | none =>
      lowercaseRange ++
        (if !args.capitals_off then uppercaseRange else []) ++
        (if !args.numerals_off then numeralRange else []) ++
        (if !args.symbols_off then symbolRanges else [])
  let filtered := chars.filter (fun b => !isExcluded args.exclude_chars b)
  if filtered.isEmpty then Except.error PasswordError.EmptyCharacterSet
  else Except.ok filtered

/-- Embedding of validate_args, including the early-return propagation of
a build_char_set error through the question-mark operator. -/
def validate_args (args : PasswordArgs) : Except PasswordError Unit :=
  if args.length = 0 then Except.error PasswordError.InvalidLength
  else if args.length > 10000 then Except.error PasswordError.InvalidLengthTooLong
  else if args.password_count = 0 then Except.error PasswordError.InvalidCount
  else if args.capitals_off && args.numerals_off && args.symbols_off then
    match build_char_set args with
    | Except.error e => Except.error e
    | Except.ok test_set =>
      if test_set.isEmpty then Except.error PasswordError.AllTypesDisabled
      else Except.ok ()
  else Except.ok ()

/-! ## Generator (src/src/lib.rs lines 330-491) -/

/-- Byte classification: lowercase range. -/
def isLowerByte (b : Nat) : Bool := 97 ≤ b && b ≤ 122
/-- Byte classification: uppercase range. -/
def isUpperByte (b : Nat) : Bool := 65 ≤ b && b ≤ 90
/-- Byte classification: numeral range. -/
def isNumByte (b : Nat) : Bool := 48 ≤ b && b ≤ 57
/-- Byte classification: symbol, the complement of the other three. -/
def isSymbolByte (b : Nat) : Bool :=
  !isLowerByte b && !isUpperByte b && !isNumByte b

/-- The lowercase subset of the alphabet, iterated in range order, as
computed in both generator modes. -/
def lowercaseOf (cs : List Nat) : List Nat :=
  lowercaseRange.filter (fun b => cs.contains b)
/-- The uppercase (capitals) subset of the alphabet in range order. -/
def capitalsOf (cs : List Nat) : List Nat :=
  uppercaseRange.filter (fun b => cs.contains b)
/-- The numeral subset of the alphabet in range order. -/
def numeralsOf (cs : List Nat) : List Nat :=
  numeralRange.filter (fun b => cs.contains b)
/-- The symbol subset, filtered out of the alphabet itself in alphabet
order, symbol meaning none of the three named ranges. -/
def symbolsOf (cs : List Nat) : List Nat :=
  cs.filter (fun b => isSymbolByte b)

/-- One uniform draw of an element out of a list, by index; mirrors
l[rng.random_range(0..l.len())]. -/
def drawFrom (l : List Nat) (r : Rng) : Nat × Rng :=
  let p := randomRange r l.length
  (l.getD p.1 0, p.2)

/-- The category subset used by pattern mode for one pattern tag. -/
def subsetFor (cs : List Nat) : PatternChar → List Nat
  | PatternChar.Lowercase => lowercaseOf cs
  | PatternChar.Uppercase => capitalsOf cs
  | PatternChar.Numeric => numeralsOf cs
  | PatternChar.Symbol => symbolsOf cs

/-- Embedding of generate_password_from_pattern: for each tag draw from
the matching subset, falling back to the whole alphabet when that subset
is empty; the random source is threaded through in order. -/
def generate_password_from_pattern (cs : List Nat) :
    List PatternChar → Rng → List Nat × Rng
  | [], r => ([], r)
  | p :: ps, r =>
    let sub := subsetFor cs p
    let d := if sub.isEmpty then drawFrom cs r else drawFrom sub r
    let rest := generate_password_from_pattern cs ps d.2
    (d.1 :: rest.1, rest.2)

/-- The per-minimum loop of generate_password_with_minimums: n
iterations, each appending one draw from the subset when the subset is
non-empty and doing nothing (not even advancing the random source)
otherwise. -/
def pushMin (subset : List Nat) (n : Nat) (acc : List Nat) (r : Rng) :
    List Nat × Rng :=
  match n with
  | 0 => (acc, r)
  | m + 1 =>
    if subset.isEmpty then pushMin subset m acc r
    else
      let d := drawFrom subset r
      pushMin subset m (acc ++ [d.1]) d.2

/-- The fill loop, structurally recursive on the number of missing
positions: append uniform draws from the whole alphabet while the
password is still shorter than the requested length. -/
def fillGo (cs : List Nat) (len : Nat) :
    Nat → List Nat → Rng → List Nat × Rng
  | 0, acc, r => (acc, r)
  | fuel + 1, acc, r =>
    if acc.length < len then
      let d := drawFrom cs r
      fillGo cs len fuel (acc ++ [d.1]) d.2
    else (acc, r)

/-- The fill loop of generate_password_with_minimums; the fuel len minus
current length bounds the number of iterations exactly. -/
def fillLoop (cs : List Nat) (len : Nat) (acc : List Nat) (r : Rng) :
    List Nat × Rng :=
  fillGo cs len (len - acc.length) acc r

/-- Swap of two positions of a list, as Vec swap; out-of-bounds indices
leave the list unchanged (they never occur in the shuffle below). -/
def listSwap (l : List Nat) (i j : Nat) : List Nat :=
  match l.get? i, l.get? j with
  | some a, some b => (l.set i b).set j a
  | _, _ => l

/-- The Fisher-Yates loop of SliceRandom shuffle: for i from len - 1 down
to 1, swap position i with a draw from 0 to i inclusive. -/
def shuffleGo : List Nat → Rng → Nat → List Nat × Rng
  | l, r, 0 => (l, r)
  | l, r, i + 1 =>
    let d := randomRange r (i + 2)
    shuffleGo (listSwap l (i + 1) d.1) d.2 i

/-- Embedding of pass_vec.shuffle(rng). -/
def shuffle (l : List Nat) (r : Rng) : List Nat × Rng :=
  shuffleGo l r (l.length - 1)

/-- The capitals block of generate_password_with_minimums, starting from
the empty password. -/
def minsPhase1 (cs : List Nat) (mc : Option Nat) (r : Rng) :
    List Nat × Rng :=
  match mc with
  | none => (([] : List Nat), r)
  | some n => pushMin (capitalsOf cs) n [] r

/-- The numerals block, applied to the state left by the capitals block. -/
def minsPhase2 (cs : List Nat) (mn : Option Nat) (s : List Nat × Rng) :
    List Nat × Rng :=
  match mn with
  | none => s
  | some n => pushMin (numeralsOf cs) n s.1 s.2

/-- The symbols block, applied to the state left by the numerals block. -/
def minsPhase3 (cs : List Nat) (ms : Option Nat) (s : List Nat × Rng) :
    List Nat × Rng :=
  match ms with
  | none => s
  | some n => pushMin (symbolsOf cs) n s.1 s.2

/-- The three sequential minimum-requirement blocks of
generate_password_with_minimums, in source order: capitals, then
numerals, then symbols, each skipped when the option is absent. -/
def minsPhase (cs : List Nat) (mc mn ms : Option Nat) (r : Rng) :
    List Nat × Rng :=
  minsPhase3 cs ms (minsPhase2 cs mn (minsPhase1 cs mc r))

/-- Embedding of generate_password_with_minimums: push each configured
minimum from its subset, fill up to the requested length from the whole
alphabet, then shuffle. -/
def generate_password_with_minimums (cs : List Nat) (len : Nat)
    (min_capitals min_numerals min_symbols : Option Nat) (r : Rng) :
    List Nat × Rng :=
  let s3 := minsPhase cs min_capitals min_numerals min_symbols r
  let s4 := fillLoop cs len s3.1 s3.2
  shuffle s4.1 s4.2

/-- Parameters of a batch generation request. -/
structure GenerationParams where
  length : Nat
  count : Nat
  min_capitals : Option Nat
  min_numerals : Option Nat
  min_symbols : Option Nat
  pattern : Option (List PatternChar)

/-- The count-fold of generate_passwords: one shared random source
threaded sequentially through every password. -/
def generatePasswordsGo (cs : List Nat) (params : GenerationParams) :
    Nat → Rng → List (List Nat) × Rng
  | 0, r => ([], r)
  | n + 1, r =>
    let p := match params.pattern with
      | some pat => generate_password_from_pattern cs pat r
      | none =>
        generate_password_with_minimums cs params.length
          params.min_capitals params.min_numerals params.min_symbols r
    let rest := generatePasswordsGo cs params n p.2
    (p.1 :: rest.1, rest.2)

/-- Embedding of generate_passwords, the batch driver. -/
def generate_passwords (cs : List Nat) (params : GenerationParams)
    (r : Rng) : List (List Nat) × Rng :=
  generatePasswordsGo cs params params.count r

/-! ## Spec-side definitions

These follow the words of the specification (section 4.2) and are compared
with the source embedding in the refinement theorem for claim C5. -/

/-- Modelled from the spec: the alphabet basis when the inclusion list is
non-empty is the inclusion list converted to bytes, verbatim, in the
given order. -/
def inclusionBasis (inc : List Char) : List Nat :=
  inc.map charToByte

/-- Modelled from the spec: the alphabet basis without an inclusion list
is lowercase, plus each further category range when enabled. -/
def categoryBasis (capitals_off numerals_off symbols_off : Bool) : List Nat :=
  lowercaseRange ++
    (if capitals_off then [] else uppercaseRange) ++
    (if numerals_off then [] else numeralRange) ++
    (if symbols_off then [] else symbolRanges)

/-- Modelled from the spec: remove every byte whose character form
appears in the exclusion set. -/
def applyExclusion (exclude : List Char) (basis : List Nat) : List Nat :=
  basis.filter (fun b => !isExcluded exclude b)

/-- Modelled from the spec: fail with EmptyCharacterSet exactly when the
filtered result is empty, otherwise return it. -/
def checkedAlphabet (filtered : List Nat) : Except PasswordError (List Nat) :=
  if filtered = [] then Except.error PasswordError.EmptyCharacterSet
  else Except.ok filtered

/-- Membership of a byte in a pattern category. -/
def inCategory : PatternChar → Nat → Bool
  | PatternChar.Lowercase, b => isLowerByte b
  | PatternChar.Uppercase, b => isUpperByte b
  | PatternChar.Numeric, b => isNumByte b
  | PatternChar.Symbol, b => isSymbolByte b

/-- The number of password positions one configured minimum actually
contributes: its value when the category subset is non-empty, zero
otherwise (and zero when not configured). -/
def effLen : Option Nat → List Nat → Nat
  | none, _ => 0
  | some n, sub => if sub.isEmpty then 0 else n

/-- The same argument record with the three category toggles replaced,
used to state that toggles are ignored in the inclusion branch. -/
def setToggles (args : PasswordArgs) (co no so : Bool) : PasswordArgs :=
  { args with capitals_off := co, numerals_off := no, symbols_off := so }

/-- A concrete deterministic random stream used by the witness and
counterexample instances. -/
def rng0 : Rng :=
  ⟨fun n => n * 7 + 3, 0⟩

/-- Concrete argument record: all three categories disabled and the whole
lowercase range excluded, used for claim C4. -/
def argsAllOffAllExcluded : PasswordArgs :=
  { capitals_off := true
    numerals_off := true
    symbols_off := true
    exclude_chars := (List.range' 97 26).map Char.ofNat
    include_chars := none
    min_capitals := none
    min_numerals := none
    min_symbols := none
    pattern := none
    length := 16
    password_count := 1 }

/-- Concrete argument record with an inclusion list and one exclusion,
used as a witness instance for the builder. -/
def argsInclude : PasswordArgs :=
  { capitals_off := false
    numerals_off := false
    symbols_off := false
    exclude_chars := ['a']
    include_chars := some ['a', 'b', 'c']
    min_capitals := none
    min_numerals := none
    min_symbols := none
    pattern := none
    length := 16
    password_count := 1 }

/-- Concrete generation parameters used as a witness instance for the
batch driver. -/
def params0 : GenerationParams :=
  { length := 4
    count := 2
    min_capitals := none
    min_numerals := none
    min_symbols := none
    pattern := none }

/-! ## Lemmas: the shuffle permutes the password -/

theorem cons_set_perm (x b : Nat) : ∀ (xs : List Nat) (k : Nat),
    xs[k]? = some b → (b :: xs.set k x).Perm (x :: xs) := by
  intro xs
  induction xs with
  | nil => intro k h; simp at h
  | cons y ys ih =>
    intro k h
    cases k with
    | zero =>
      simp at h
      subst h
      simpa using List.Perm.swap x y ys
    | succ j =>
      simp at h
      have h2 : (b :: ys.set j x).Perm (x :: ys) := ih j h
      have h1 : (b :: y :: ys.set j x).Perm (y :: b :: ys.set j x) :=
        List.Perm.swap y b (ys.set j x)
      have h3 : (y :: b :: ys.set j x).Perm (y :: x :: ys) := h2.cons y
      have h4 : (y :: x :: ys).Perm (x :: y :: ys) := List.Perm.swap x y ys
      simpa using (h1.trans h3).trans h4

theorem set_set_perm : ∀ (l : List Nat) (i j a b : Nat),
    l[i]? = some a → l[j]? = some b →
    ((l.set i b).set j a).Perm l := by
  intro l
  induction l with
  | nil => intro i j a b hi _; simp at hi
  | cons y ys ih =>
    intro i j a b hi hj
    cases i with
    | zero =>
      simp at hi
      subst hi
      cases j with
      | zero => simp at hj; subst hj; simp
      | succ k =>
        simp at hj
        simpa using cons_set_perm y b ys k hj
    | succ m =>
      cases j with
      | zero =>
        simp at hi hj
        subst hj
        simpa using cons_set_perm y a ys m hi
      | succ k =>
        simp at hi hj
        simpa using (ih m k a b hi hj).cons y

theorem listSwap_perm (l : List Nat) (i j : Nat) : (listSwap l i j).Perm l := by
  unfold listSwap
  cases hi : l.get? i with
  | none => simp
  | some a =>
    cases hj : l.get? j with
    | none => simp
    | some b =>
      rw [List.get?_eq_getElem?] at hi hj
      simpa using set_set_perm l i j a b hi hj

theorem shuffleGo_perm : ∀ (n : Nat) (l : List Nat) (r : Rng),
    ((shuffleGo l r n).1).Perm l := by
  intro n
  induction n with
  | zero => intro l r; exact List.Perm.refl l
  | succ i ih =>
    intro l r
    exact (ih _ _).trans (listSwap_perm l (i + 1) _)

theorem shuffle_perm (l : List Nat) (r : Rng) : ((shuffle l r).1).Perm l :=
  shuffleGo_perm (l.length - 1) l r

/-! ## Lemmas: draws, category subsets, minimum pushes and the fill loop -/

theorem drawFrom_mem (l : List Nat) (r : Rng) (h : l ≠ []) :
    (drawFrom l r).1 ∈ l := by
  have hlen : 0 < l.length := List.length_pos.mpr h
  have hidx : r.stream r.pos % l.length < l.length := Nat.mod_lt _ hlen
  unfold drawFrom randomRange
  simpa [List.getD_eq_getElem?_getD, List.getElem?_eq_getElem hidx]
    using List.getElem_mem hidx

theorem mem_lowercaseOf (cs : List Nat) (b : Nat) (h : b ∈ lowercaseOf cs) :
    isLowerByte b = true ∧ b ∈ cs := by
  unfold lowercaseOf lowercaseRange at h
  rw [List.mem_filter] at h
  have hr := List.mem_range'_1.mp h.1
  refine ⟨by simp only [isLowerByte, Bool.and_eq_true, decide_eq_true_eq]; omega, ?_⟩
  exact List.elem_iff.mp h.2

theorem mem_capitalsOf (cs : List Nat) (b : Nat) (h : b ∈ capitalsOf cs) :
    isUpperByte b = true ∧ b ∈ cs := by
  unfold capitalsOf uppercaseRange at h
  rw [List.mem_filter] at h
  have hr := List.mem_range'_1.mp h.1
  refine ⟨by simp only [isUpperByte, Bool.and_eq_true, decide_eq_true_eq]; omega, ?_⟩
  exact List.elem_iff.mp h.2

theorem mem_numeralsOf (cs : List Nat) (b : Nat) (h : b ∈ numeralsOf cs) :
    isNumByte b = true ∧ b ∈ cs := by
  unfold numeralsOf numeralRange at h
  rw [List.mem_filter] at h
  have hr := List.mem_range'_1.mp h.1
  refine ⟨by simp only [isNumByte, Bool.and_eq_true, decide_eq_true_eq]; omega, ?_⟩
  exact List.elem_iff.mp h.2

theorem mem_symbolsOf (cs : List Nat) (b : Nat) (h : b ∈ symbolsOf cs) :
    isSymbolByte b = true ∧ b ∈ cs := by
  unfold symbolsOf at h
  rw [List.mem_filter] at h
  exact ⟨h.2, h.1⟩

theorem mem_subsetFor (cs : List Nat) (p : PatternChar) (b : Nat)
    (h : b ∈ subsetFor cs p) : inCategory p b = true ∧ b ∈ cs := by
  cases p with
  | Lowercase => exact mem_lowercaseOf cs b h
  | Uppercase => exact mem_capitalsOf cs b h
  | Numeric => exact mem_numeralsOf cs b h
  | Symbol => exact mem_symbolsOf cs b h

theorem pushMin_length (subset : List Nat) : ∀ (n : Nat) (acc : List Nat)
    (r : Rng), (pushMin subset n acc r).1.length =
      acc.length + (if subset.isEmpty then 0 else n) := by
  intro n
  induction n with
  | zero => intro acc r; simp [pushMin]
  | succ m ih =>
    intro acc r
    by_cases h : subset.isEmpty
    · simp [pushMin, h, ih]
    · simp only [pushMin, h, if_false, Bool.false_eq_true]
      rw [ih]
      simp [h]
      omega

theorem pushMin_mem (subset : List Nat) : ∀ (n : Nat) (acc : List Nat)
    (r : Rng) (x : Nat), x ∈ (pushMin subset n acc r).1 →
      x ∈ acc ∨ x ∈ subset := by
  intro n
  induction n with
  | zero => intro acc r x h; exact Or.inl h
  | succ m ih =>
    intro acc r x h
    by_cases he : subset.isEmpty
    · simp only [pushMin, he, if_true] at h
      exact ih acc r x h
    · simp only [pushMin, he, Bool.false_eq_true, if_false] at h
      rcases ih _ _ x h with hmem | hmem
      · rcases List.mem_append.mp hmem with h1 | h1
        · exact Or.inl h1
        · right
          have hne : subset ≠ [] := by
            intro hc; rw [hc] at he; simp at he
          have := drawFrom_mem subset r hne
          simpa using List.mem_singleton.mp h1 ▸ this
      · exact Or.inr hmem

theorem pushMin_countP_mono (subset : List Nat) (p : Nat → Bool) :
    ∀ (n : Nat) (acc : List Nat) (r : Rng),
      acc.countP p ≤ (pushMin subset n acc r).1.countP p := by
  intro n
  induction n with
  | zero => intro acc r; simp [pushMin]
  | succ m ih =>
    intro acc r
    by_cases he : subset.isEmpty
    · simpa [pushMin, he] using ih acc r
    · simp only [pushMin, he, Bool.false_eq_true, if_false]
      calc acc.countP p ≤ (acc ++ [(drawFrom subset r).1]).countP p := by
            simp
        _ ≤ _ := ih _ _

theorem pushMin_countP_full (subset : List Nat) (p : Nat → Bool)
    (hall : ∀ x ∈ subset, p x = true) (hne : subset ≠ []) :
    ∀ (n : Nat) (acc : List Nat) (r : Rng),
      (pushMin subset n acc r).1.countP p = acc.countP p + n := by
  intro n
  induction n with
  | zero => intro acc r; simp [pushMin]
  | succ m ih =>
    intro acc r
    have he : subset.isEmpty = false := by
      cases subset with
      | nil => exact absurd rfl hne
      | cons a l => rfl
    simp only [pushMin, he, Bool.false_eq_true, if_false]
    rw [ih]
    have hp : p (drawFrom subset r).1 = true :=
      hall _ (drawFrom_mem subset r hne)
    simp [List.countP_append, hp]
    omega

theorem fillGo_length (cs : List Nat) (len : Nat) : ∀ (fuel : Nat)
    (acc : List Nat) (r : Rng), len ≤ acc.length + fuel →
      (fillGo cs len fuel acc r).1.length = max len acc.length := by
  intro fuel
  induction fuel with
  | zero =>
    intro acc r h
    simp only [fillGo]
    omega
  | succ f ih =>
    intro acc r h
    by_cases hlt : acc.length < len
    · simp only [fillGo, hlt, if_true]
      rw [ih _ _ (by simp; omega)]
      simp
      omega
    · simp only [fillGo, hlt, if_false]
      omega

theorem fillLoop_length (cs : List Nat) (len : Nat) (acc : List Nat)
    (r : Rng) : (fillLoop cs len acc r).1.length = max len acc.length := by
  unfold fillLoop
  exact fillGo_length cs len _ acc r (by omega)

theorem fillGo_mem (cs : List Nat) (len : Nat) (hcs : cs ≠ []) :
    ∀ (fuel : Nat) (acc : List Nat) (r : Rng) (x : Nat),
      x ∈ (fillGo cs len fuel acc r).1 → x ∈ acc ∨ x ∈ cs := by
  intro fuel
  induction fuel with
  | zero => intro acc r x h; exact Or.inl h
  | succ f ih =>
    intro acc r x h
    by_cases hlt : acc.length < len
    · simp only [fillGo, hlt, if_true] at h
      rcases ih _ _ x h with hmem | hmem
      · rcases List.mem_append.mp hmem with h1 | h1
        · exact Or.inl h1
        · right
          have := drawFrom_mem cs r hcs
          simpa using List.mem_singleton.mp h1 ▸ this
      · exact Or.inr hmem
    · simp only [fillGo, hlt, if_false] at h
      exact Or.inl h

theorem fillGo_countP_mono (cs : List Nat) (len : Nat) (p : Nat → Bool) :
    ∀ (fuel : Nat) (acc : List Nat) (r : Rng),
      acc.countP p ≤ (fillGo cs len fuel acc r).1.countP p := by
  intro fuel
  induction fuel with
  | zero => intro acc r; simp [fillGo]
  | succ f ih =>
    intro acc r
    by_cases hlt : acc.length < len
    · simp only [fillGo, hlt, if_true]
      calc acc.countP p ≤ (acc ++ [(drawFrom cs r).1]).countP p := by simp
        _ ≤ _ := ih _ _
    · simp [fillGo, hlt]

/-! ## Lemmas: the minimum-requirements phase -/

theorem minsPhase1_length (cs : List Nat) (mc : Option Nat) (r : Rng) :
    (minsPhase1 cs mc r).1.length = effLen mc (capitalsOf cs) := by
  cases mc with
  | none => simp [minsPhase1, effLen]
  | some n => simp [minsPhase1, effLen, pushMin_length]

theorem minsPhase2_length (cs : List Nat) (mn : Option Nat)
    (s : List Nat × Rng) : (minsPhase2 cs mn s).1.length =
      s.1.length + effLen mn (numeralsOf cs) := by
  cases mn with
  | none => simp [minsPhase2, effLen]
  | some n => simp [minsPhase2, effLen, pushMin_length]

theorem minsPhase3_length (cs : List Nat) (ms : Option Nat)
    (s : List Nat × Rng) : (minsPhase3 cs ms s).1.length =
      s.1.length + effLen ms (symbolsOf cs) := by
  cases ms with
  | none => simp [minsPhase3, effLen]
  | some n => simp [minsPhase3, effLen, pushMin_length]

theorem minsPhase_length (cs : List Nat) (mc mn ms : Option Nat) (r : Rng) :
    (minsPhase cs mc mn ms r).1.length =
      effLen mc (capitalsOf cs) + effLen mn (numeralsOf cs) +
        effLen ms (symbolsOf cs) := by
  unfold minsPhase
  rw [minsPhase3_length, minsPhase2_length, minsPhase1_length]

theorem minsPhase1_mem (cs : List Nat) (mc : Option Nat) (r : Rng)
    (x : Nat) (h : x ∈ (minsPhase1 cs mc r).1) : x ∈ capitalsOf cs := by
  cases mc with
  | none => simp [minsPhase1] at h
  | some n =>
    rcases pushMin_mem _ _ _ _ x h with h1 | h1
    · simp at h1
    · exact h1

theorem minsPhase2_mem (cs : List Nat) (mn : Option Nat)
    (s : List Nat × Rng) (x : Nat) (h : x ∈ (minsPhase2 cs mn s).1) :
    x ∈ s.1 ∨ x ∈ numeralsOf cs := by
  cases mn with
  | none => exact Or.inl h
  | some n => exact pushMin_mem _ _ _ _ x h

theorem minsPhase3_mem (cs : List Nat) (ms : Option Nat)
    (s : List Nat × Rng) (x : Nat) (h : x ∈ (minsPhase3 cs ms s).1) :
    x ∈ s.1 ∨ x ∈ symbolsOf cs := by
  cases ms with
  | none => exact Or.inl h
  | some n => exact pushMin_mem _ _ _ _ x h

theorem minsPhase_mem (cs : List Nat) (mc mn ms : Option Nat) (r : Rng)
    (x : Nat) (h : x ∈ (minsPhase cs mc mn ms r).1) : x ∈ cs := by
  unfold minsPhase at h
  rcases minsPhase3_mem cs ms _ x h with h1 | h1
  · rcases minsPhase2_mem cs mn _ x h1 with h2 | h2
    · exact (mem_capitalsOf cs x (minsPhase1_mem cs mc r x h2)).2
    · exact (mem_numeralsOf cs x h2).2
  · exact (mem_symbolsOf cs x h1).2

theorem minsPhase2_countP_mono (cs : List Nat) (mn : Option Nat)
    (s : List Nat × Rng) (p : Nat → Bool) :
    s.1.countP p ≤ (minsPhase2 cs mn s).1.countP p := by
  cases mn with
  | none => simp [minsPhase2]
  | some n => exact pushMin_countP_mono _ p n s.1 s.2

theorem minsPhase3_countP_mono (cs : List Nat) (ms : Option Nat)
    (s : List Nat × Rng) (p : Nat → Bool) :
    s.1.countP p ≤ (minsPhase3 cs ms s).1.countP p := by
  cases ms with
  | none => simp [minsPhase3]
  | some n => exact pushMin_countP_mono _ p n s.1 s.2

theorem minsPhase_countP_capitals (cs : List Nat) (c : Nat)
    (mn ms : Option Nat) (r : Rng) (hne : capitalsOf cs ≠ []) :
    c ≤ (minsPhase cs (some c) mn ms r).1.countP (fun b => isUpperByte b) := by
  unfold minsPhase
  have h1 : (minsPhase1 cs (some c) r).1.countP (fun b => isUpperByte b) = c := by
    unfold minsPhase1
    rw [pushMin_countP_full (capitalsOf cs) _
      (fun x hx => (mem_capitalsOf cs x hx).1) hne c [] r]
    simp
  calc c = (minsPhase1 cs (some c) r).1.countP (fun b => isUpperByte b) :=
        h1.symm
    _ ≤ (minsPhase2 cs mn (minsPhase1 cs (some c) r)).1.countP
          (fun b => isUpperByte b) := minsPhase2_countP_mono _ _ _ _
    _ ≤ _ := minsPhase3_countP_mono _ _ _ _

theorem minsPhase_countP_numerals (cs : List Nat) (n : Nat)
    (mc ms : Option Nat) (r : Rng) (hne : numeralsOf cs ≠ []) :
    n ≤ (minsPhase cs mc (some n) ms r).1.countP (fun b => isNumByte b) := by
  unfold minsPhase
  have h2 : ∀ s : List Nat × Rng,
      n ≤ (minsPhase2 cs (some n) s).1.countP (fun b => isNumByte b) := by
    intro s
    unfold minsPhase2
    rw [pushMin_countP_full (numeralsOf cs) _
      (fun x hx => (mem_numeralsOf cs x hx).1) hne n s.1 s.2]
    omega
  exact le_trans (h2 _) (minsPhase3_countP_mono _ _ _ _)

theorem minsPhase_countP_symbols (cs : List Nat) (s : Nat)
    (mc mn : Option Nat) (r : Rng) (hne : symbolsOf cs ≠ []) :
    s ≤ (minsPhase cs mc mn (some s) r).1.countP (fun b => isSymbolByte b) := by
  unfold minsPhase minsPhase3
  rw [pushMin_countP_full (symbolsOf cs) _
    (fun x hx => (mem_symbolsOf cs x hx).1) hne s _ _]
  omega

theorem fillLoop_mem (cs : List Nat) (len : Nat) (acc : List Nat) (r : Rng)
    (hcs : cs ≠ []) (x : Nat) (h : x ∈ (fillLoop cs len acc r).1) :
    x ∈ acc ∨ x ∈ cs := by
  unfold fillLoop at h
  exact fillGo_mem cs len hcs _ acc r x h

theorem fillLoop_countP_mono (cs : List Nat) (len : Nat) (acc : List Nat)
    (r : Rng) (p : Nat → Bool) :
    acc.countP p ≤ (fillLoop cs len acc r).1.countP p := by
  unfold fillLoop
  exact fillGo_countP_mono cs len p _ acc r

/-! ## Claims about the minimum-requirements generator -/

/-- C1 (amended): for every non-empty alphabet, configured minimums
(c, n, s) and length L, the password length equals max of L and the sum
of the effective minimums, where a minimum counts only when its category
subset of the alphabet is non-empty; with all three subsets non-empty
this is max of L and c plus n plus s. -/
theorem minimums_length_max (cs : List Nat) (len c n s : Nat) (r : Rng)
    (hcs : cs ≠ []) :
    (generate_password_with_minimums cs len (some c) (some n) (some s)
        r).1.length =
      max len ((if (capitalsOf cs).isEmpty then 0 else c) +
        (if (numeralsOf cs).isEmpty then 0 else n) +
        (if (symbolsOf cs).isEmpty then 0 else s)) := by
  unfold generate_password_with_minimums
  rw [(shuffle_perm _ _).length_eq, fillLoop_length, minsPhase_length]
  simp only [effLen]

/-- C2: whenever a category minimum is configured non-zero and the
category subset of the alphabet is non-empty, the generated password
contains at least that many characters of the category. -/
theorem minimums_counts (cs : List Nat) (len : Nat) (mc mn ms : Option Nat)
    (r : Rng) :
    (∀ c, mc = some c → 0 < c → capitalsOf cs ≠ [] →
      c ≤ (generate_password_with_minimums cs len mc mn ms r).1.countP
        (fun b => isUpperByte b)) ∧
    (∀ n, mn = some n → 0 < n → numeralsOf cs ≠ [] →
      n ≤ (generate_password_with_minimums cs len mc mn ms r).1.countP
        (fun b => isNumByte b)) ∧
    (∀ s, ms = some s → 0 < s → symbolsOf cs ≠ [] →
      s ≤ (generate_password_with_minimums cs len mc mn ms r).1.countP
        (fun b => isSymbolByte b)) := by
  refine ⟨?_, ?_, ?_⟩
  · intro c hc _ hne
    subst hc
    unfold generate_password_with_minimums
    rw [(shuffle_perm _ _).countP_eq]
    exact le_trans (minsPhase_countP_capitals cs c mn ms r hne)
      (fillLoop_countP_mono _ _ _ _ _)
  · intro n hn _ hne
    subst hn
    unfold generate_password_with_minimums
    rw [(shuffle_perm _ _).countP_eq]
    exact le_trans (minsPhase_countP_numerals cs n mc ms r hne)
      (fillLoop_countP_mono _ _ _ _ _)
  · intro s hs _ hne
    subst hs
    unfold generate_password_with_minimums
    rw [(shuffle_perm _ _).countP_eq]
    exact le_trans (minsPhase_countP_symbols cs s mc mn r hne)
      (fillLoop_countP_mono _ _ _ _ _)

/-- C6: with no minimums configured, the password has length exactly L
and every character is an element of the alphabet. -/
theorem minimums_none_basic (cs : List Nat) (len : Nat) (r : Rng)
    (hcs : cs ≠ []) (hlen : 1 ≤ len) :
    (generate_password_with_minimums cs len none none none r).1.length =
        len ∧
      ∀ b ∈ (generate_password_with_minimums cs len none none none r).1,
        b ∈ cs := by
  constructor
  · unfold generate_password_with_minimums
    rw [(shuffle_perm _ _).length_eq, fillLoop_length, minsPhase_length]
    simp [effLen]
  · intro b hb
    unfold generate_password_with_minimums at hb
    rw [(shuffle_perm _ _).mem_iff] at hb
    rcases fillLoop_mem cs len _ _ hcs b hb with h | h
    · exact minsPhase_mem cs none none none r b h
    · exact h

/-! ## Claim about pattern mode -/

/-- C3: pattern mode yields exactly one character per pattern tag; at a
position whose category subset of the alphabet is non-empty the character
is in that category, and at a position whose subset is empty the
character is drawn from the whole alphabet. -/
theorem pattern_mode_positions (cs : List Nat) (pat : List PatternChar)
    (r : Rng) (hcs : cs ≠ []) :
    (generate_password_from_pattern cs pat r).1.length = pat.length ∧
    ∀ i, i < pat.length →
      (subsetFor cs (pat.getD i PatternChar.Lowercase) ≠ [] →
        inCategory (pat.getD i PatternChar.Lowercase)
          ((generate_password_from_pattern cs pat r).1.getD i 0) = true) ∧
      (subsetFor cs (pat.getD i PatternChar.Lowercase) = [] →
        (generate_password_from_pattern cs pat r).1.getD i 0 ∈ cs) := by
  constructor
  · induction pat generalizing r with
    | nil => simp [generate_password_from_pattern]
    | cons p ps ih => simp [generate_password_from_pattern, ih]
  · induction pat generalizing r with
    | nil => intro i hi; simp at hi
    | cons p ps ih =>
      intro i hi
      cases i with
      | zero =>
        simp only [generate_password_from_pattern, List.getD_cons_zero]
        by_cases hemp : (subsetFor cs p).isEmpty
        · have hsub : subsetFor cs p = [] := List.isEmpty_iff.mp hemp
          constructor
          · intro hne; exact absurd hsub hne
          · intro _
            simpa [hemp] using drawFrom_mem cs r hcs
        · have hsub : subsetFor cs p ≠ [] := by
            intro hc; rw [hc] at hemp; simp at hemp
          constructor
          · intro _
            have hmem := drawFrom_mem (subsetFor cs p) r hsub
            simpa [hemp] using (mem_subsetFor cs p _ hmem).1
          · intro hc; exact absurd hc hsub
      | succ j =>
        simp only [generate_password_from_pattern, List.getD_cons_succ]
        exact ih _ j (by simpa using hi)

/-! ## Claim about the batch driver -/

/-- C9: the batch driver is deterministic: identical alphabet, parameters
and identically-seeded random sources yield identical password
sequences. -/
theorem batch_deterministic (cs : List Nat) (params : GenerationParams)
    (r1 r2 : Rng) (h : r1 = r2) :
    (generate_passwords cs params r1).1 =
      (generate_passwords cs params r2).1 := by
  rw [h]

/-! ## Lemmas and claims about the token parser -/

theorem addLiteralChars_nodup : ∀ (t acc : List Char), acc.Nodup →
    (addLiteralChars acc t).Nodup := by
  intro t
  induction t with
  | nil => intro acc h; exact h
  | cons c cs ih =>
    intro acc h
    have hstep : addLiteralChars acc (c :: cs) =
        addLiteralChars (if acc.contains c then acc else acc ++ [c]) cs := by
      unfold addLiteralChars
      simp [List.foldl_cons]
    rw [hstep]
    by_cases hc : acc.contains c
    · rw [if_pos hc]
      exact ih acc h
    · rw [if_neg hc]
      have hnot : c ∉ acc := fun hm => hc (List.elem_iff.mpr hm)
      exact ih (acc ++ [c]) (by simp [List.nodup_append, h, hnot])

theorem processToken_ok_of_not_range (acc t : List Char)
    (acc' : List Char) (hnr : expandsAsRange t = false)
    (h : processToken acc t = some (Except.ok acc')) :
    acc' = addLiteralChars acc t := by
  unfold processToken at h
  split at h
  case isTrue hb =>
    split at h
    case h_1 c0 c1 rest =>
      split at h
      case isTrue hc1 =>
        split at h
        case h_1 c2 rest' =>
          dsimp only at h
          split at h
          case isTrue hcond =>
            exfalso
            subst hc1
            have hexp : expandsAsRange (c0 :: '-' :: c2 :: rest') = true := by
              unfold expandsAsRange
              simp [hb, hcond.1, hcond.2.1, hcond.2.2]
            rw [hexp] at hnr
            exact Bool.true_eq_false.mp hnr
          case isFalse hcond =>
            split at h
            case isTrue hlt => exact absurd (Option.some.inj h) (by simp)
            case isFalse hlt => exact (Except.ok.inj (Option.some.inj h)).symm
        case h_2 => exact absurd h (by simp)
      case isFalse hc1 => exact (Except.ok.inj (Option.some.inj h)).symm
    case h_2 => exact absurd h (by simp)
    case h_3 => exact absurd h (by simp)
  case isFalse hb => exact (Except.ok.inj (Option.some.inj h)).symm

theorem parseExcludeGo_nodup : ∀ (ts : List (List Char)) (acc res : List Char),
    acc.Nodup → (∀ t ∈ ts, expandsAsRange t = false) →
    parseExcludeGo acc ts = some (Except.ok res) → res.Nodup := by
  intro ts
  induction ts with
  | nil =>
    intro acc res hacc _ h
    unfold parseExcludeGo at h
    rw [← Except.ok.inj (Option.some.inj h)]
    exact hacc
  | cons t ts' ih =>
    intro acc res hacc hall h
    unfold parseExcludeGo at h
    cases hp : processToken acc t with
    | none => rw [hp] at h; exact absurd h (by simp)
    | some v =>
      cases v with
      | error e => rw [hp] at h; exact absurd (Option.some.inj h) (by simp)
      | ok acc' =>
        rw [hp] at h
        have heq : acc' = addLiteralChars acc t :=
          processToken_ok_of_not_range acc t acc'
            (hall t (List.mem_cons_self t ts')) hp
        have hacc' : acc'.Nodup := by
          rw [heq]; exact addLiteralChars_nodup t acc hacc
        exact ih acc' res hacc'
          (fun u hu => hall u (List.mem_cons_of_mem t hu)) h

/-- C7 (amended): characters reaching the result through the literal
branch are skipped when already present, so whenever no token of the
input is expanded as a range a successful parse returns a sequence with
no duplicate characters; range expansion, by contrast, appends
unconditionally and can create duplicates. -/
theorem parse_exclude_nodup (tokens : List (List Char)) (res : List Char)
    (hall : ∀ t ∈ tokens, expandsAsRange t = false)
    (h : parse_exclude_chars tokens = some (Except.ok res)) : res.Nodup :=
  parseExcludeGo_nodup tokens [] res List.nodup_nil hall h

/-- C8 (amended): a token of the range shape whose endpoint bytes are not
both printable ASCII is never expanded as a range; if additionally the
token is three bytes long and its start byte exceeds its end byte the
parser fails with the invalid-range error, and in every other case each
of the constituent characters, dash included, goes through the
literal-character branch. -/
theorem range_shape_outside_printable (acc : List Char) (c0 c2 : Char)
    (hout : c0.toNat % 256 < 32 ∨ 126 < c0.toNat % 256 ∨
      c2.toNat % 256 < 32 ∨ 126 < c2.toNat % 256) :
    (tokenByteLen [c0, '-', c2] = 3 ∧ c2.toNat % 256 < c0.toNat % 256 →
      processToken acc [c0, '-', c2] =
        some (Except.error (rangeErrMsg c0 c2))) ∧
    (¬(tokenByteLen [c0, '-', c2] = 3 ∧ c2.toNat % 256 < c0.toNat % 256) →
      processToken acc [c0, '-', c2] =
        some (Except.ok (addLiteralChars acc [c0, '-', c2]))) := by
  constructor
  · intro hcase
    have hcond : ¬(c0.toNat % 256 ≤ c2.toNat % 256 ∧
        32 ≤ c0.toNat % 256 ∧ c2.toNat % 256 < 127) := by omega
    simp [processToken, hcase.1, hcond, hcase.2]
  · intro hcase
    by_cases hb : tokenByteLen [c0, '-', c2] = 3
    · have hlt : ¬(c2.toNat % 256 < c0.toNat % 256) := fun hl =>
        hcase ⟨hb, hl⟩
      have hcond : ¬(c0.toNat % 256 ≤ c2.toNat % 256 ∧
          32 ≤ c0.toNat % 256 ∧ c2.toNat % 256 < 127) := by omega
      simp [processToken, hb, hcond, hlt]
    · simp [processToken, hb]

/-- C10: the parser panics (models as none) on a token whose UTF-8 byte
length is 3 but which holds a single three-byte character, such as the
euro sign: the index of the second character is out of bounds. -/
theorem parse_panics_on_multibyte :
    parse_exclude_chars [[Char.ofNat 8364]] = none := rfl

/-! ## Claims about the builder and validator -/

/-- C5: with a non-empty inclusion list the alphabet is built from the
inclusion list alone, ignoring the category toggles, then filtered by the
exclusion set, failing with EmptyCharacterSet exactly when the filtered
result is empty; without an inclusion list the category ranges are
assembled and the same filter and emptiness check are applied. -/
theorem build_char_set_spec (args : PasswordArgs) :
    (∀ inc, args.include_chars = some inc → inc ≠ [] →
      build_char_set args =
        checkedAlphabet (applyExclusion args.exclude_chars
          (inclusionBasis inc)) ∧
      ∀ co no so,
        build_char_set (setToggles args co no so) = build_char_set args) ∧
    (args.include_chars = none →
      build_char_set args =
        checkedAlphabet (applyExclusion args.exclude_chars
          (categoryBasis args.capitals_off args.numerals_off
            args.symbols_off))) := by
  constructor
  · intro inc hinc _
    constructor
    · unfold build_char_set checkedAlphabet applyExclusion inclusionBasis
      rw [hinc]
      simp [List.isEmpty_iff]
    · intro co no so
      unfold build_char_set setToggles
      dsimp only
      rw [hinc]
  · intro hinc
    unfold build_char_set checkedAlphabet applyExclusion categoryBasis
    rw [hinc]
    cases hcap : args.capitals_off <;> cases hnum : args.numerals_off <;>
      cases hsym : args.symbols_off <;> simp [List.isEmpty_iff]

/-- C4 (amended): when length and count pass their bounds checks, all
three categories are disabled, there is no inclusion list, and the whole
lowercase range is excluded, validate_args fails with EmptyCharacterSet,
propagated from build_char_set by the early return; the AllTypesDisabled
branch is unreachable because build_char_set already fails on an empty
set. -/
theorem validate_all_off_all_excluded (args : PasswordArgs)
    (hlen0 : args.length ≠ 0) (hlen1 : args.length ≤ 10000)
    (hcount : args.password_count ≠ 0)
    (hc : args.capitals_off = true) (hn : args.numerals_off = true)
    (hs : args.symbols_off = true) (hinc : args.include_chars = none)
    (hexcl : ∀ b ∈ lowercaseRange, isExcluded args.exclude_chars b = true) :
    validate_args args = Except.error PasswordError.EmptyCharacterSet := by
  have hbuild : build_char_set args =
      Except.error PasswordError.EmptyCharacterSet := by
    unfold build_char_set
    rw [hinc, hc, hn, hs]
    simp only [Bool.not_true, Bool.false_eq_true, if_false]
    simp [List.isEmpty_iff, List.filter_eq_nil_iff]
    exact hexcl
  unfold validate_args
  rw [if_neg hlen0, if_neg (by omega : ¬args.length > 10000),
    if_neg hcount, hc, hn, hs]
  simp only [Bool.and_self, if_true]
  rw [hbuild]

/-! ## Counterexamples and witness instances -/

/-- C1 counterexample: over the alphabet holding only the lowercase byte
97, with length 1 and minimums 5, 1 and 1, the generated password has
length 1, not max of 1 and the sum 7: category subsets that are empty
contribute nothing to the length. -/
theorem minimums_length_counterexample :
    (generate_password_with_minimums [97] 1 (some 5) (some 1) (some 1)
      rng0).1.length ≠ max 1 (5 + 1 + 1) := by decide

/-- Witness for the amended C1 theorem at a concrete input. -/
theorem minimums_length_max_witness :
    (generate_password_with_minimums [97, 65, 48, 33] 3 (some 2) (some 2)
        (some 2) rng0).1.length =
      max 3 ((if (capitalsOf [97, 65, 48, 33]).isEmpty then 0 else 2) +
        (if (numeralsOf [97, 65, 48, 33]).isEmpty then 0 else 2) +
        (if (symbolsOf [97, 65, 48, 33]).isEmpty then 0 else 2)) :=
  minimums_length_max [97, 65, 48, 33] 3 2 2 2 rng0 (by decide)

/-- Witness for the C2 theorem at a concrete input. -/
theorem minimums_counts_witness :
    2 ≤ (generate_password_with_minimums [97, 65, 48, 33] 10 (some 2)
        (some 2) (some 2) rng0).1.countP (fun b => isUpperByte b) ∧
    2 ≤ (generate_password_with_minimums [97, 65, 48, 33] 10 (some 2)
        (some 2) (some 2) rng0).1.countP (fun b => isNumByte b) ∧
    2 ≤ (generate_password_with_minimums [97, 65, 48, 33] 10 (some 2)
        (some 2) (some 2) rng0).1.countP (fun b => isSymbolByte b) :=
  ⟨(minimums_counts [97, 65, 48, 33] 10 (some 2) (some 2) (some 2)
      rng0).1 2 rfl (by decide) (by decide),
   (minimums_counts [97, 65, 48, 33] 10 (some 2) (some 2) (some 2)
      rng0).2.1 2 rfl (by decide) (by decide),
   (minimums_counts [97, 65, 48, 33] 10 (some 2) (some 2) (some 2)
      rng0).2.2 2 rfl (by decide) (by decide)⟩

/-- Witness for the C3 theorem at a concrete input. -/
theorem pattern_mode_witness :
    (generate_password_from_pattern [97, 65, 48, 33]
        [PatternChar.Uppercase, PatternChar.Symbol] rng0).1.length = 2 ∧
    inCategory PatternChar.Uppercase
      ((generate_password_from_pattern [97, 65, 48, 33]
        [PatternChar.Uppercase, PatternChar.Symbol] rng0).1.getD 0 0) =
      true :=
  ⟨(pattern_mode_positions [97, 65, 48, 33]
      [PatternChar.Uppercase, PatternChar.Symbol] rng0 (by decide)).1,
   ((pattern_mode_positions [97, 65, 48, 33]
      [PatternChar.Uppercase, PatternChar.Symbol] rng0 (by decide)).2 0
        (by decide)).1 (by decide)⟩

/-- C4 counterexample: the concrete input disabling every category and
excluding the whole lowercase range makes validate_args fail with
EmptyCharacterSet, not AllTypesDisabled. -/
theorem validate_args_counterexample :
    lowercaseRange.all
        (isExcluded argsAllOffAllExcluded.exclude_chars) = true ∧
    validate_args argsAllOffAllExcluded =
        Except.error PasswordError.EmptyCharacterSet ∧
    PasswordError.EmptyCharacterSet ≠ PasswordError.AllTypesDisabled :=
  ⟨by decide, rfl, by decide⟩

/-- Witness for the amended C4 theorem at a concrete input. -/
theorem validate_all_off_all_excluded_witness :
    validate_args argsAllOffAllExcluded =
      Except.error PasswordError.EmptyCharacterSet :=
  validate_all_off_all_excluded argsAllOffAllExcluded (by decide)
    (by decide) (by decide) rfl rfl rfl rfl (by decide)

/-- Witness for the C5 theorem at a concrete input. -/
theorem build_char_set_spec_witness :
    build_char_set argsInclude =
      checkedAlphabet (applyExclusion argsInclude.exclude_chars
        (inclusionBasis ['a', 'b', 'c'])) ∧
    build_char_set (setToggles argsInclude true true true) =
      build_char_set argsInclude :=
  ⟨((build_char_set_spec argsInclude).1 ['a', 'b', 'c'] rfl (by decide)).1,
   ((build_char_set_spec argsInclude).1 ['a', 'b', 'c'] rfl
      (by decide)).2 true true true⟩

/-- Witness for the C6 theorem at a concrete input. -/
theorem minimums_none_witness :
    (generate_password_with_minimums [97, 98] 4 none none none
        rng0).1.length = 4 ∧
    (generate_password_with_minimums [97, 98] 4 none none none
        rng0).1.getD 0 0 ∈ [97, 98] :=
  ⟨(minimums_none_basic [97, 98] 4 rng0 (by decide) (by decide)).1,
   (minimums_none_basic [97, 98] 4 rng0 (by decide) (by decide)).2 _
     (by decide)⟩

/-- C7 counterexample: the range expansion of the second token appends
the byte of a although a is already present, so the parser output holds
a duplicate. -/
theorem parse_nodup_counterexample :
    parse_exclude_chars [['a'], ['a', '-', 'c']] =
        some (Except.ok ['a', 'a', 'b', 'c']) ∧
      ¬ List.Nodup ['a', 'a', 'b', 'c'] :=
  ⟨rfl, by decide⟩

/-- Witness for the amended C7 theorem at a concrete input. -/
theorem parse_exclude_nodup_witness :
    parse_exclude_chars [['a', 'b'], ['x']] =
        some (Except.ok ['a', 'b', 'x']) ∧
      List.Nodup ['a', 'b', 'x'] :=
  ⟨rfl, parse_exclude_nodup [['a', 'b'], ['x']] ['a', 'b', 'x']
    (by decide) rfl⟩

/-- C8 counterexample: the token of two control characters around a dash
has the range shape with both endpoints outside printable ASCII, yet the
parser returns the invalid-range error because the start byte exceeds
the end byte, instead of falling through to literal handling. -/
theorem range_error_counterexample :
    parse_exclude_chars [[Char.ofNat 31, '-', Char.ofNat 16]] =
      some (Except.error (rangeErrMsg (Char.ofNat 31) (Char.ofNat 16))) :=
  rfl

/-- Witness for the amended C8 theorem at a concrete input. -/
theorem range_shape_outside_printable_witness :
    processToken [] [Char.ofNat 31, '-', Char.ofNat 16] =
      some (Except.error (rangeErrMsg (Char.ofNat 31) (Char.ofNat 16))) :=
  (range_shape_outside_printable [] (Char.ofNat 31) (Char.ofNat 16)
    (by decide)).1 (by decide)

/-- Witness for the C9 theorem at a concrete input. -/
theorem batch_deterministic_witness :
    (generate_passwords [97, 98] params0 rng0).1 =
      (generate_passwords [97, 98] params0 rng0).1 :=
  batch_deterministic [97, 98] params0 rng0 rng0 rfl

end Rpg
